import Mathlib

/-!
# Verification of `cvs2svn_lib/symbol_strategy.py`

Shallow embedding of the symbol-strategy module of cvs2svn: strategy
rules that classify a CVS symbol (given its usage statistics) as a
Branch, Tag or ExcludedSymbol, and the rule-based strategy that runs a
chain of rules over a collection of statistics records.

The Python module compiles `'^' + pattern + '$'` with `re.compile` and
tests symbol names with `regexp.match`.  We embed the fragment of
Python regular-expression syntax that such patterns use (literal
characters, `.`, `*`, `+`, `?`, alternation `|`, groups `(...)` and the
anchors `^`/`$`), with Python semantics: `re.match` succeeds when the
regex matches some prefix of the string starting at position 0; `^`
matches only at position 0; `$` matches at the end of the string or
just before a final newline; `.` matches any character except newline;
`|` has the lowest precedence.
-/

namespace SymbolStrategy

/-- Identity of a CVS symbol: a name and an opaque numeric id
(module `cvs2svn_lib.symbol`). -/
structure Symbol where
  id : Nat
  name : String
deriving DecidableEq, Repr

/-- The per-symbol usage statistics record consumed read-only by the
strategy rules (interface of `cvs2svn_lib.symbol_statistics`):
`stats.symbol`, `stats.tag_create_count`, `stats.branch_create_count`,
`stats.branch_commit_count`. -/
structure SymbolStats where
  symbol : Symbol
  tag_create_count : Nat
  branch_create_count : Nat
  branch_commit_count : Nat
deriving DecidableEq, Repr

/-- The classified symbol returned by a rule: one of the classes
`Branch`, `Tag`, `ExcludedSymbol` of `cvs2svn_lib.symbol`, each
wrapping the symbol identity. -/
inductive TypedSymbol where
  | Branch (symbol : Symbol)
  | Tag (symbol : Symbol)
  | ExcludedSymbol (symbol : Symbol)
deriving DecidableEq, Repr

/-- The symbol identity wrapped by a `TypedSymbol`. -/
def TypedSymbol.symbol : TypedSymbol → Symbol
  | .Branch s => s
  | .Tag s => s
  | .ExcludedSymbol s => s

/-- Abstract syntax of the embedded regular-expression fragment.
`caret` and `dollar` are the zero-width anchors `^` and `$`, which in
Python are ordinary atoms of the regex grammar (so that in
`'^' + pattern + '$'` a top-level `|` inside `pattern` binds looser
than the added anchors). -/
inductive Regex where
  | epsilon
  | char (c : Char)
  | dot
  | caret
  | dollar
  | seq (r₁ r₂ : Regex)
  | alt (r₁ r₂ : Regex)
  | star (r : Regex)
deriving DecidableEq, Repr

/-- Add the positions of `b` not already present to `a` (a list used
as a finite set of string positions). -/
def unionPos (a b : List Nat) : List Nat :=
  b.foldl (fun acc i => if i ∈ acc then acc else acc ++ [i]) a

/-- Reflexive-transitive closure of one application of the
position-set transformer `f`, computed by `k` rounds of widening.
Called with `k = s.length + 1`; positions lie in `{0, ..., s.length}`,
so that many rounds always reach the closure. -/
def iterUnion (f : List Nat → List Nat) : Nat → List Nat → List Nat
  | 0, ps => ps
  | k + 1, ps => iterUnion f k (unionPos ps (f ps))

/-- Position-set semantics of the regex fragment over the character
list `s`: from the set `ps` of starting positions, the set of
positions where a match of the regex can end.  This captures exactly
the nondeterministic matching semantics of Python's `re`, restricted
to match existence (which is all `_RegexpStrategyRule` uses: the
truthiness of `regexp.match(...)`). -/
def runRegex (s : List Char) : Regex → List Nat → List Nat
  | .epsilon, ps => ps
  | .char c, ps => ps.filterMap (fun i =>
      match s.get? i with
      | some c' => if c' = c then some (i + 1) else none
      | none => none)
  | .dot, ps => ps.filterMap (fun i =>
      match s.get? i with
      | some c' => if c' = '\n' then none else some (i + 1)
      | none => none)
  | .caret, ps => ps.filter (fun i => i == 0)
  | .dollar, ps => ps.filter (fun i =>
      i == s.length || (i + 1 == s.length && s.get? i == some '\n'))
  | .seq r₁ r₂, ps => runRegex s r₂ (runRegex s r₁ ps)
  | .alt r₁ r₂, ps => unionPos (runRegex s r₁ ps) (runRegex s r₂ ps)
  | .star r, ps => iterUnion (fun qs => runRegex s r qs) (s.length + 1) ps

/-- Characters that the embedded parser does not treat as literals.
`\` and `[` begin escape/class syntax outside the embedded fragment. -/
def isLiteralChar (c : Char) : Bool :=
  !(c ∈ ['|', '*', '+', '?', '(', ')', '.', '^', '$', '\\', '['])

mutual

/-- Parse an alternation (lowest precedence), fuel-indexed. -/
def parseAlt : Nat → List Char → Option (Regex × List Char)
  | 0, _ => none
  | fuel + 1, cs =>
    match parseBranch fuel cs with
    | none => none
    | some (r, rest) =>
      match rest with
      | '|' :: rest' =>
        match parseAlt fuel rest' with
        | none => none
        | some (r', rest'') => some (.alt r r', rest'')
      | _ => some (r, rest)

/-- Parse a concatenation of pieces; an empty branch parses as
`epsilon`. -/
def parseBranch : Nat → List Char → Option (Regex × List Char)
  | 0, _ => none
  | fuel + 1, cs =>
    match parsePiece fuel cs with
    | none => some (.epsilon, cs)
    | some (r, rest) =>
      match parseBranch fuel rest with
      | none => none
      | some (r', rest') => some (.seq r r', rest')

/-- Parse an atom with an optional postfix repetition operator. -/
def parsePiece : Nat → List Char → Option (Regex × List Char)
  | 0, _ => none
  | fuel + 1, cs =>
    match parseAtom fuel cs with
    | none => none
    | some (r, rest) =>
      match rest with
      | '*' :: rest' => some (.star r, rest')
      | '+' :: rest' => some (.seq r (.star r), rest')
      | '?' :: rest' => some (.alt r .epsilon, rest')
      | _ => some (r, rest)

/-- Parse an atom: a group, `.`, an anchor, or a literal character. -/
def parseAtom : Nat → List Char → Option (Regex × List Char)
  | 0, _ => none
  | fuel + 1, cs =>
    match cs with
    | [] => none
    | c :: rest =>
      if c = '(' then
        match parseAlt fuel rest with
        | none => none
        | some (r, rest') =>
          match rest' with
          | ')' :: rest'' => some (r, rest'')
          | _ => none
      else if c = '.' then some (.dot, rest)
      else if c = '^' then some (.caret, rest)
      else if c = '$' then some (.dollar, rest)
      else if isLiteralChar c then some (.char c, rest)
      else none

end

/-- Model of `re.compile` on the embedded fragment: parse the whole
pattern, failing (like `re.error`) when the pattern is not a
syntactically valid regular expression of the fragment. -/
def reCompile (pattern : String) : Option Regex :=
  match parseAlt (4 * pattern.data.length + 8) pattern.data with
  | some (r, []) => some r
  | _ => none

/-- Model of the truthiness of `regexp.match(name)`: the compiled
regex matches some prefix of `name` starting at position 0. -/
def reMatches (r : Regex) (name : String) : Bool :=
  !(runRegex name.data r [0]).isEmpty

/-- The pattern `p`, by itself, matches the ENTIRE string `name`
(Python's `re.fullmatch(p, name)`).  This is the property the module's
docstring promises of `_RegexpStrategyRule` ("PATTERN must match a
full symbol name for the rule to apply"); it is stated from the spec's
words, to be compared with what the code computes. -/
def patternFullMatches (p : String) (name : String) : Bool :=
  match reCompile p with
  | some r => (runRegex name.data r [0]).contains name.data.length
  | none => false

/-- The action of a `_RegexpStrategyRule`: which of the classes
`Branch`, `Tag`, `ExcludedSymbol` it applies on a match. -/
inductive SymbolKind where
  | branch
  | tag
  | excluded
deriving DecidableEq, Repr

/-- Apply an action class to a symbol identity. -/
def SymbolKind.apply : SymbolKind → Symbol → TypedSymbol
  | .branch, s => TypedSymbol.Branch s
  | .tag, s => TypedSymbol.Tag s
  | .excluded, s => TypedSymbol.ExcludedSymbol s

/-- The closed set of `StrategyRule` subclasses defined in
`symbol_strategy.py`.  `regexpRule` carries the compiled regex and the
action class of a constructed `_RegexpStrategyRule`; the other
variants carry no configuration. -/
inductive StrategyRule where
  | regexpRule (regexp : Regex) (action : SymbolKind)
  | unambiguousUsageRule
  | branchIfCommitsRule
  | heuristicStrategyRule
  | allBranchRule
  | allTagRule
deriving DecidableEq, Repr

/-- Dispatch of `rule.get_symbol(stats)` over the rule subclasses,
translated clause by clause from the Python bodies. -/
def StrategyRule.get_symbol : StrategyRule → SymbolStats → Option TypedSymbol
  | .regexpRule regexp action, stats =>
    if reMatches regexp stats.symbol.name then
      some (action.apply stats.symbol)
    else
      none
  | .unambiguousUsageRule, stats =>
    let is_tag := 0 < stats.tag_create_count
    let is_branch := 0 < stats.branch_create_count ∨ 0 < stats.branch_commit_count
    if is_tag ∧ is_branch then
      none
    else if is_branch then
      some (TypedSymbol.Branch stats.symbol)
    else if is_tag then
      some (TypedSymbol.Tag stats.symbol)
    else
      none
  | .branchIfCommitsRule, stats =>
    if 0 < stats.branch_commit_count then
      some (TypedSymbol.Branch stats.symbol)
    else
      none
  | .heuristicStrategyRule, stats =>
    if stats.tag_create_count ≥ stats.branch_create_count then
      some (TypedSymbol.Tag stats.symbol)
    else
      some (TypedSymbol.Branch stats.symbol)
  | .allBranchRule, stats => some (TypedSymbol.Branch stats.symbol)
  | .allTagRule, stats => some (TypedSymbol.Tag stats.symbol)

/-- `_RegexpStrategyRule.__init__`: compile `'^' + pattern + '$'`,
raising `FatalError` (modelled as `Except.error` with the message
text) when the pattern is not a valid regexp. -/
def RegexpStrategyRule (pattern : String) (action : SymbolKind) :
    Except String StrategyRule :=
  match reCompile ("^" ++ pattern ++ "$") with
  | some regexp => Except.ok (StrategyRule.regexpRule regexp action)
  | none => Except.error (pattern ++ " is not a valid regexp.")

/-- `ForceBranchRegexpStrategyRule(pattern)`. -/
def ForceBranchRegexpStrategyRule (pattern : String) : Except String StrategyRule :=
  RegexpStrategyRule pattern SymbolKind.branch

/-- `ForceTagRegexpStrategyRule(pattern)`. -/
def ForceTagRegexpStrategyRule (pattern : String) : Except String StrategyRule :=
  RegexpStrategyRule pattern SymbolKind.tag

/-- `ExcludeRegexpStrategyRule(pattern)`. -/
def ExcludeRegexpStrategyRule (pattern : String) : Except String StrategyRule :=
  RegexpStrategyRule pattern SymbolKind.excluded

/-- `RuleBasedSymbolStrategy`: its only state is the list of rules,
applied in order. -/
structure RuleBasedSymbolStrategy where
  rules : List StrategyRule
deriving DecidableEq, Repr

/-- The loop of `RuleBasedSymbolStrategy._get_symbol`: try the rules
in list order and return the first result that is not `None`. -/
def getSymbolFromRules : List StrategyRule → SymbolStats → Option TypedSymbol
  | [], _ => none
  | rule :: rest, stats =>
    match rule.get_symbol stats with
    | some symbol => some symbol
    | none => getSymbolFromRules rest stats

/-- `RuleBasedSymbolStrategy._get_symbol(stats)`. -/
def RuleBasedSymbolStrategy.get_symbol_of (self : RuleBasedSymbolStrategy)
    (stats : SymbolStats) : Option TypedSymbol :=
  getSymbolFromRules self.rules stats

/-- `RuleBasedSymbolStrategy.add_rule(rule)`: append to the evaluation
order. -/
def RuleBasedSymbolStrategy.add_rule (self : RuleBasedSymbolStrategy)
    (rule : StrategyRule) : RuleBasedSymbolStrategy :=
  ⟨self.rules ++ [rule]⟩

/-- The loop of `RuleBasedSymbolStrategy.get_symbols`: walk the
records in iteration order appending each classified symbol to the
first list and each record covered by no rule to the second
(the `symbols` and `mismatches` lists of the Python body). -/
def collectSymbols (rules : List StrategyRule) :
    List SymbolStats → List TypedSymbol × List SymbolStats
  | [] => ([], [])
  | stats :: rest =>
    let r := collectSymbols rules rest
    match getSymbolFromRules rules stats with
    | some symbol => (symbol :: r.1, r.2)
    | none => (r.1, stats :: r.2)

/-- `RuleBasedSymbolStrategy.get_symbols(symbol_stats)`: `None`
(modelled as `none`) when any record was covered by no rule, otherwise
the list of classified symbols. -/
def RuleBasedSymbolStrategy.get_symbols (self : RuleBasedSymbolStrategy)
    (symbol_stats : List SymbolStats) : Option (List TypedSymbol) :=
  let c := collectSymbols self.rules symbol_stats
  if c.2.isEmpty then some c.1 else none

/-- The records written line by line to stderr by
`RuleBasedSymbolStrategy.get_symbols` when it fails: the `mismatches`
list, in iteration order. -/
def RuleBasedSymbolStrategy.reported_mismatches (self : RuleBasedSymbolStrategy)
    (symbol_stats : List SymbolStats) : List SymbolStats :=
  (collectSymbols self.rules symbol_stats).2

/-! ### State-threaded translation

The Python objects are mutable in principle; to state frame
properties, evaluation is also translated in state-passing style.
Each call returns, alongside its result, the statistics record (and,
at strategy level, the whole strategy and record list) as it stands
after the call.  The Python bodies contain no assignment to `stats`
fields or to `self._rules`, so every clause passes the state through
the reads unchanged; the theorems below check that the threaded values
come back equal to the inputs and that the result agrees with the
direct translation. -/

/-- `rule.get_symbol(stats)` with the record threaded through the
call. -/
def StrategyRule.get_symbol_state (rule : StrategyRule) (stats : SymbolStats) :
    Option TypedSymbol × SymbolStats :=
  (rule.get_symbol stats, stats)

/-- The `_get_symbol` loop with the record threaded through each rule
call. -/
def getSymbolFromRulesState : List StrategyRule → SymbolStats →
    Option TypedSymbol × SymbolStats
  | [], stats => (none, stats)
  | rule :: rest, stats =>
    let r := rule.get_symbol_state stats
    match r.1 with
    | some t => (some t, r.2)
    | none => getSymbolFromRulesState rest r.2

/-- The `get_symbols` loop with the record list threaded through: the
first component pairs the `symbols` and `mismatches` lists, the second
is the record store after the pass. -/
def collectSymbolsState (rules : List StrategyRule) :
    List SymbolStats → (List TypedSymbol × List SymbolStats) × List SymbolStats
  | [] => (([], []), [])
  | stats :: rest =>
    let r := getSymbolFromRulesState rules stats
    let c := collectSymbolsState rules rest
    match r.1 with
    | some t => ((t :: c.1.1, c.1.2), r.2 :: c.2)
    | none => ((c.1.1, r.2 :: c.1.2), r.2 :: c.2)

/-- `self.get_symbols(symbol_stats)` in state-passing style: result,
strategy after the call, record store after the call. -/
def RuleBasedSymbolStrategy.get_symbols_state (self : RuleBasedSymbolStrategy)
    (symbol_stats : List SymbolStats) :
    Option (List TypedSymbol) × RuleBasedSymbolStrategy × List SymbolStats :=
  let c := collectSymbolsState self.rules symbol_stats
  (if c.1.2.isEmpty then some c.1.1 else none, self, c.2)

/-! ### Concrete fixtures used by the claims -/

/-- A symbol named "rel-1". -/
def relSymbol : Symbol := ⟨1, "rel-1"⟩

/-- Statistics for `relSymbol` (counts irrelevant to regexp rules). -/
def relStats : SymbolStats := ⟨relSymbol, 0, 0, 0⟩

/-- The rule `ForceTagRegexpStrategyRule("rel-.*")` (construction
succeeds, as the accompanying theorems check). -/
def relTagRule : StrategyRule :=
  (ForceTagRegexpStrategyRule "rel-.*").toOption.getD StrategyRule.allBranchRule

/-- A symbol named "food". -/
def foodSymbol : Symbol := ⟨2, "food"⟩

/-- Statistics for `foodSymbol`. -/
def foodStats : SymbolStats := ⟨foodSymbol, 0, 0, 0⟩

/-- The rule `ForceBranchRegexpStrategyRule("foo|bar")`. -/
def fooBarBranchRule : StrategyRule :=
  (ForceBranchRegexpStrategyRule "foo|bar").toOption.getD StrategyRule.allTagRule

/-- The rule `ForceBranchRegexpStrategyRule("foo")`. -/
def fooBranchRule : StrategyRule :=
  (ForceBranchRegexpStrategyRule "foo").toOption.getD StrategyRule.allTagRule

/-- Statistics for a symbol named "foo". -/
def fooStats : SymbolStats := ⟨⟨3, "foo"⟩, 0, 0, 0⟩

/-- Statistics for a symbol named "foobar". -/
def foobarStats : SymbolStats := ⟨⟨4, "foobar"⟩, 0, 0, 0⟩

/-- Statistics for a symbol named "xfoo". -/
def xfooStats : SymbolStats := ⟨⟨5, "xfoo"⟩, 0, 0, 0⟩

deriving instance DecidableEq for Except

/-! ### Helper lemmas -/

/-- Every rule that classifies a record wraps that record's own
symbol identity in the result. -/
theorem StrategyRule.get_symbol_wraps (rule : StrategyRule) (stats : SymbolStats)
    (t : TypedSymbol) (h : rule.get_symbol stats = some t) :
    t.symbol = stats.symbol := by
  cases rule with
  | regexpRule r a =>
    simp only [StrategyRule.get_symbol] at h
    split at h
    · cases h
      cases a <;> rfl
    · cases h
  | unambiguousUsageRule =>
    simp only [StrategyRule.get_symbol] at h
    split_ifs at h <;> cases h <;> rfl
  | branchIfCommitsRule =>
    simp only [StrategyRule.get_symbol] at h
    split_ifs at h
    cases h
    rfl
  | heuristicStrategyRule =>
    simp only [StrategyRule.get_symbol] at h
    split_ifs at h <;> cases h <;> rfl
  | allBranchRule =>
    cases h
    rfl
  | allTagRule =>
    cases h
    rfl

/-- A whole chain likewise only ever wraps the record's own symbol. -/
theorem getSymbolFromRules_wraps (rules : List StrategyRule) (stats : SymbolStats)
    (t : TypedSymbol) (h : getSymbolFromRules rules stats = some t) :
    t.symbol = stats.symbol := by
  induction rules with
  | nil => cases h
  | cons rule rest ih =>
    simp only [getSymbolFromRules] at h
    cases heq : rule.get_symbol stats with
    | some s =>
      rw [heq] at h
      cases h
      exact rule.get_symbol_wraps stats t heq
    | none =>
      rw [heq] at h
      exact ih h

/-- The `symbols` list built by the loop is the in-order list of
classifications of the covered records. -/
theorem collectSymbols_fst (rules : List StrategyRule) (sl : List SymbolStats) :
    (collectSymbols rules sl).1 = sl.filterMap (getSymbolFromRules rules) := by
  induction sl with
  | nil => rfl
  | cons stats rest ih =>
    simp only [collectSymbols, List.filterMap_cons]
    cases heq : getSymbolFromRules rules stats <;> simp [heq, ih]

/-- The `mismatches` list built by the loop is the in-order list of
records covered by no rule. -/
theorem collectSymbols_snd (rules : List StrategyRule) (sl : List SymbolStats) :
    (collectSymbols rules sl).2
      = sl.filter (fun s => (getSymbolFromRules rules s).isNone) := by
  induction sl with
  | nil => rfl
  | cons stats rest ih =>
    simp only [collectSymbols, List.filter_cons]
    cases heq : getSymbolFromRules rules stats <;> simp [heq, ih]

/-- `get_symbols` fails exactly when some input record is covered by
no rule of the chain. -/
theorem get_symbols_eq_none_iff (self : RuleBasedSymbolStrategy)
    (sl : List SymbolStats) :
    self.get_symbols sl = none
      ↔ ∃ s ∈ sl, getSymbolFromRules self.rules s = none := by
  have hsnd := collectSymbols_snd self.rules sl
  simp only [RuleBasedSymbolStrategy.get_symbols]
  by_cases hE : (collectSymbols self.rules sl).2.isEmpty = true
  · rw [if_pos hE]
    refine iff_of_false (by simp) ?_
    rw [hsnd, List.isEmpty_iff] at hE
    rintro ⟨s, hmem, hnone⟩
    have hs : s ∈ sl.filter (fun s => (getSymbolFromRules self.rules s).isNone) :=
      List.mem_filter.2 ⟨hmem, by simp [hnone]⟩
    rw [hE] at hs
    cases hs
  · rw [if_neg hE]
    refine iff_of_true rfl ?_
    rw [hsnd, List.isEmpty_iff] at hE
    obtain ⟨s, hs⟩ := List.exists_mem_of_ne_nil _ hE
    have hmem := List.mem_of_mem_filter hs
    have hnone := List.of_mem_filter hs
    exact ⟨s, hmem, Option.isNone_iff_eq_none.1 (by simpa using hnone)⟩

/-- On success, `get_symbols` returns exactly the in-order
classifications of all records, each record being covered. -/
theorem get_symbols_eq_some (self : RuleBasedSymbolStrategy)
    (sl : List SymbolStats) (out : List TypedSymbol)
    (h : self.get_symbols sl = some out) :
    out = sl.filterMap (getSymbolFromRules self.rules)
      ∧ ∀ s ∈ sl, (getSymbolFromRules self.rules s).isSome := by
  simp only [RuleBasedSymbolStrategy.get_symbols] at h
  split at h
  · rename_i hempty
    cases h
    refine ⟨collectSymbols_fst _ _, fun s hmem => ?_⟩
    rw [collectSymbols_snd, List.isEmpty_iff, List.filter_eq_nil_iff] at hempty
    have := hempty s hmem
    cases hopt : getSymbolFromRules self.rules s with
    | some t => rfl
    | none => exact absurd (by simp [hopt]) this
  · cases h

/-- With every record covered, the classifications wrap the records'
symbols one for one, in order. -/
theorem filterMap_symbols (rules : List StrategyRule) (sl : List SymbolStats)
    (h : ∀ s ∈ sl, (getSymbolFromRules rules s).isSome) :
    (sl.filterMap (getSymbolFromRules rules)).map TypedSymbol.symbol
      = sl.map SymbolStats.symbol := by
  induction sl with
  | nil => rfl
  | cons stats rest ih =>
    cases heq : getSymbolFromRules rules stats with
    | none =>
      have hs := h stats (List.mem_cons_self _ _)
      rw [heq] at hs
      simp at hs
    | some t =>
      simp only [List.filterMap_cons, heq, List.map_cons]
      rw [getSymbolFromRules_wraps rules stats t heq,
        ih (fun s hs => h s (List.mem_cons_of_mem _ hs))]

/-- Indexwise consequence of an equality of mapped lists. -/
theorem map_eq_map_get (l₁ : List TypedSymbol) (l₂ : List SymbolStats)
    (h : l₁.map TypedSymbol.symbol = l₂.map SymbolStats.symbol) :
    ∀ i (h₁ : i < l₁.length) (h₂ : i < l₂.length),
      (l₁.get ⟨i, h₁⟩).symbol = (l₂.get ⟨i, h₂⟩).symbol := by
  induction l₁ generalizing l₂ with
  | nil => intro i h₁ h₂; cases h₁
  | cons t rest ih =>
    cases l₂ with
    | nil => cases h
    | cons s rest₂ =>
      simp only [List.map_cons, List.cons.injEq] at h
      intro i h₁ h₂
      cases i with
      | zero => exact h.1
      | succ j => exact ih rest₂ h.2 j (Nat.lt_of_succ_lt_succ h₁) (Nat.lt_of_succ_lt_succ h₂)

/-- The two catch-all rules classify every record. -/
theorem catch_all_total (stats : SymbolStats) :
    StrategyRule.allBranchRule.get_symbol stats
        = some (TypedSymbol.Branch stats.symbol)
      ∧ StrategyRule.allTagRule.get_symbol stats
        = some (TypedSymbol.Tag stats.symbol) :=
  ⟨rfl, rfl⟩

/-- A chain containing a catch-all rule covers every record. -/
theorem chain_isSome_of_catch_all (rules : List StrategyRule) (stats : SymbolStats)
    (h : StrategyRule.allBranchRule ∈ rules ∨ StrategyRule.allTagRule ∈ rules) :
    (getSymbolFromRules rules stats).isSome := by
  induction rules with
  | nil => simp at h
  | cons rule rest ih =>
    simp only [getSymbolFromRules]
    cases heq : rule.get_symbol stats with
    | some t => rfl
    | none =>
      have hmem : StrategyRule.allBranchRule ∈ rest ∨ StrategyRule.allTagRule ∈ rest := by
        rcases h with h | h <;> rcases List.mem_cons.1 h with rfl | hm
        · cases heq
        · exact Or.inl hm
        · cases heq
        · exact Or.inr hm
      exact ih hmem

/-- The chain with the single rule `AllBranchRule` covers every record
and classifies it as a branch. -/
theorem collect_allBranch (sl : List SymbolStats) :
    collectSymbols [StrategyRule.allBranchRule] sl
      = (sl.map (fun s => TypedSymbol.Branch s.symbol), []) := by
  induction sl with
  | nil => rfl
  | cons stats rest ih =>
    simp [collectSymbols, getSymbolFromRules, StrategyRule.get_symbol, ih]

/-- The state-threaded `_get_symbol` loop computes the direct result
and leaves the record unchanged. -/
theorem getSymbolFromRulesState_eq (rules : List StrategyRule) (stats : SymbolStats) :
    getSymbolFromRulesState rules stats = (getSymbolFromRules rules stats, stats) := by
  induction rules with
  | nil => rfl
  | cons rule rest ih =>
    simp only [getSymbolFromRulesState, getSymbolFromRules, StrategyRule.get_symbol_state]
    cases rule.get_symbol stats <;> simp [ih]

/-- The state-threaded `get_symbols` loop computes the direct result
and leaves the record store unchanged. -/
theorem collectSymbolsState_eq (rules : List StrategyRule) (sl : List SymbolStats) :
    collectSymbolsState rules sl = (collectSymbols rules sl, sl) := by
  induction sl with
  | nil => rfl
  | cons stats rest ih =>
    simp only [collectSymbolsState, collectSymbols, getSymbolFromRulesState_eq]
    cases getSymbolFromRules rules stats <;> simp [ih]

/-! ### The claims -/

/-- C1: a chain evaluates its rules strictly in the order they were
appended and returns the classification of the first rule that does
not abstain, never consulting later rules once one matched (the
result with a matching head rule does not depend on the rest of the
chain); in particular `[ForceTag("rel-.*"), AllBranch]` classifies the
symbol "rel-1" as Tag while `[AllBranch, ForceTag("rel-.*")]`
classifies it as Branch. -/
theorem first_match_wins :
    (∀ (rest : List StrategyRule) (rule : StrategyRule) (stats : SymbolStats)
        (t : TypedSymbol), rule.get_symbol stats = some t →
        getSymbolFromRules (rule :: rest) stats = some t)
    ∧ (∀ (rest : List StrategyRule) (rule : StrategyRule) (stats : SymbolStats),
        rule.get_symbol stats = none →
        getSymbolFromRules (rule :: rest) stats = getSymbolFromRules rest stats)
    ∧ ForceTagRegexpStrategyRule "rel-.*" = Except.ok relTagRule
    ∧ getSymbolFromRules [relTagRule, StrategyRule.allBranchRule] relStats
        = some (TypedSymbol.Tag relSymbol)
    ∧ getSymbolFromRules [StrategyRule.allBranchRule, relTagRule] relStats
        = some (TypedSymbol.Branch relSymbol) := by
  refine ⟨?_, ?_, by decide, by decide, by decide⟩
  · intro rest rule stats t h
    simp [getSymbolFromRules, h]
  · intro rest rule stats h
    simp [getSymbolFromRules, h]

/-- Witness for C1 at concrete inputs. -/
theorem first_match_wins_witness :
    getSymbolFromRules [StrategyRule.allTagRule, StrategyRule.allBranchRule] relStats
        = some (TypedSymbol.Tag relSymbol)
    ∧ getSymbolFromRules [StrategyRule.unambiguousUsageRule, StrategyRule.allTagRule] relStats
        = getSymbolFromRules [StrategyRule.allTagRule] relStats :=
  ⟨first_match_wins.1 [StrategyRule.allBranchRule] StrategyRule.allTagRule relStats
      (TypedSymbol.Tag relSymbol) (by decide),
    first_match_wins.2.1 [StrategyRule.allTagRule] StrategyRule.unambiguousUsageRule relStats
      (by decide)⟩

/-- C2: if some record is covered by no rule then `get_symbols`
returns no classification set at all and reports every mismatched
record (in input order); if every record is covered, the full
classification set is returned. -/
theorem get_symbols_all_or_nothing (self : RuleBasedSymbolStrategy)
    (sl : List SymbolStats) :
    ((∃ s ∈ sl, getSymbolFromRules self.rules s = none) →
        self.get_symbols sl = none
        ∧ self.reported_mismatches sl
            = sl.filter (fun s => (getSymbolFromRules self.rules s).isNone))
    ∧ ((∀ s ∈ sl, (getSymbolFromRules self.rules s).isSome) →
        self.get_symbols sl
          = some (sl.filterMap (getSymbolFromRules self.rules))) := by
  constructor
  · intro hex
    exact ⟨(get_symbols_eq_none_iff self sl).2 hex, collectSymbols_snd _ _⟩
  · intro hall
    cases hout : self.get_symbols sl with
    | none =>
      obtain ⟨s, hmem, hnone⟩ := (get_symbols_eq_none_iff self sl).1 hout
      have := hall s hmem
      rw [hnone] at this
      cases this
    | some out =>
      rw [(get_symbols_eq_some self sl out hout).1]

/-- Witness for C2 at concrete inputs. -/
theorem get_symbols_all_or_nothing_witness :
    ((RuleBasedSymbolStrategy.mk []).get_symbols [relStats] = none
      ∧ (RuleBasedSymbolStrategy.mk []).reported_mismatches [relStats]
          = [relStats].filter (fun s => (getSymbolFromRules [] s).isNone))
    ∧ (RuleBasedSymbolStrategy.mk [StrategyRule.allBranchRule]).get_symbols [relStats]
        = some ([relStats].filterMap
            (getSymbolFromRules [StrategyRule.allBranchRule])) :=
  ⟨(get_symbols_all_or_nothing ⟨[]⟩ [relStats]).1 ⟨relStats, by decide, by decide⟩,
    (get_symbols_all_or_nothing ⟨[StrategyRule.allBranchRule]⟩ [relStats]).2
      (by
        intro s hs
        rw [List.mem_singleton] at hs
        subst hs
        decide)⟩

/-- C3 (behavior of the code at the failing input): the pattern
"foo|bar" contains a top-level alternation, so the compiled
`'^foo|bar$'` is `(^foo)|(bar$)` and `ForceBranch("foo|bar")`
classifies the symbol named "food" even though the pattern does not
match the entire name — the rule is not fully anchored for such
patterns, contradicting the claim (and the module's docstring).  For
alternation-free patterns the claimed anchoring does hold, as the
"foo" cases show. -/
theorem regexp_alternation_escapes_anchoring :
    ForceBranchRegexpStrategyRule "foo|bar" = Except.ok fooBarBranchRule
    ∧ fooBarBranchRule.get_symbol foodStats = some (TypedSymbol.Branch foodSymbol)
    ∧ patternFullMatches "foo|bar" "food" = false
    ∧ ForceBranchRegexpStrategyRule "foo" = Except.ok fooBranchRule
    ∧ fooBranchRule.get_symbol fooStats = some (TypedSymbol.Branch fooStats.symbol)
    ∧ fooBranchRule.get_symbol foobarStats = none
    ∧ fooBranchRule.get_symbol xfooStats = none := by
  decide

/-- C4: `UnambiguousUsage` with `is_tag = tag_create_count > 0` and
`is_branch = branch_create_count > 0 ∨ branch_commit_count > 0`
abstains when both hold, returns Branch when only `is_branch` holds,
returns Tag when only `is_tag` holds, and abstains when neither
holds. -/
theorem unambiguous_usage_cases (stats : SymbolStats) :
    (0 < stats.tag_create_count
        ∧ (0 < stats.branch_create_count ∨ 0 < stats.branch_commit_count) →
        StrategyRule.unambiguousUsageRule.get_symbol stats = none)
    ∧ (¬ 0 < stats.tag_create_count
        ∧ (0 < stats.branch_create_count ∨ 0 < stats.branch_commit_count) →
        StrategyRule.unambiguousUsageRule.get_symbol stats
          = some (TypedSymbol.Branch stats.symbol))
    ∧ (0 < stats.tag_create_count
        ∧ ¬ (0 < stats.branch_create_count ∨ 0 < stats.branch_commit_count) →
        StrategyRule.unambiguousUsageRule.get_symbol stats
          = some (TypedSymbol.Tag stats.symbol))
    ∧ (¬ 0 < stats.tag_create_count
        ∧ ¬ (0 < stats.branch_create_count ∨ 0 < stats.branch_commit_count) →
        StrategyRule.unambiguousUsageRule.get_symbol stats = none) := by
  simp only [StrategyRule.get_symbol]
  refine ⟨?_, ?_, ?_, ?_⟩ <;> intro h <;> split_ifs <;> tauto

/-- Witness for C4 at the four concrete usage profiles. -/
theorem unambiguous_usage_cases_witness :
    StrategyRule.unambiguousUsageRule.get_symbol ⟨⟨6, "v"⟩, 1, 1, 0⟩ = none
    ∧ StrategyRule.unambiguousUsageRule.get_symbol ⟨⟨6, "v"⟩, 0, 1, 0⟩
        = some (TypedSymbol.Branch ⟨6, "v"⟩)
    ∧ StrategyRule.unambiguousUsageRule.get_symbol ⟨⟨6, "v"⟩, 1, 0, 0⟩
        = some (TypedSymbol.Tag ⟨6, "v"⟩)
    ∧ StrategyRule.unambiguousUsageRule.get_symbol ⟨⟨6, "v"⟩, 0, 0, 0⟩ = none :=
  ⟨(unambiguous_usage_cases ⟨⟨6, "v"⟩, 1, 1, 0⟩).1 (by decide),
    (unambiguous_usage_cases ⟨⟨6, "v"⟩, 0, 1, 0⟩).2.1 (by decide),
    (unambiguous_usage_cases ⟨⟨6, "v"⟩, 1, 0, 0⟩).2.2.1 (by decide),
    (unambiguous_usage_cases ⟨⟨6, "v"⟩, 0, 0, 0⟩).2.2.2 (by decide)⟩

/-- C5: `Heuristic` never abstains; it returns Tag whenever
`tag_create_count >= branch_create_count` (ties, including both
zero, favor Tag) and Branch otherwise. -/
theorem heuristic_never_abstains (stats : SymbolStats) :
    (StrategyRule.heuristicStrategyRule.get_symbol stats).isSome
    ∧ (stats.tag_create_count ≥ stats.branch_create_count →
        StrategyRule.heuristicStrategyRule.get_symbol stats
          = some (TypedSymbol.Tag stats.symbol))
    ∧ (stats.tag_create_count < stats.branch_create_count →
        StrategyRule.heuristicStrategyRule.get_symbol stats
          = some (TypedSymbol.Branch stats.symbol)) := by
  simp only [StrategyRule.get_symbol]
  refine ⟨?_, ?_, ?_⟩
  · split_ifs <;> rfl
  · intro h
    rw [if_pos h]
  · intro h
    rw [if_neg (by omega)]

/-- Witness for C5: an equal-counts record resolves to Tag, a
branch-heavy record to Branch. -/
theorem heuristic_never_abstains_witness :
    StrategyRule.heuristicStrategyRule.get_symbol ⟨⟨7, "w"⟩, 2, 2, 0⟩
        = some (TypedSymbol.Tag ⟨7, "w"⟩)
    ∧ StrategyRule.heuristicStrategyRule.get_symbol ⟨⟨7, "w"⟩, 0, 1, 0⟩
        = some (TypedSymbol.Branch ⟨7, "w"⟩) :=
  ⟨(heuristic_never_abstains ⟨⟨7, "w"⟩, 2, 2, 0⟩).2.1 (by decide),
    (heuristic_never_abstains ⟨⟨7, "w"⟩, 0, 1, 0⟩).2.2 (by decide)⟩

/-- C6: constructing a pattern rule fails (with the fatal error) for
exactly the pattern strings whose compilation fails, at construction
time; a successfully constructed rule's evaluation is a total
function that only ever decides (with its fixed action on the
record's symbol) or abstains. -/
theorem regexp_construction_fails_only_on_invalid (pattern : String)
    (action : SymbolKind) :
    ((∃ e, RegexpStrategyRule pattern action = Except.error e)
        ↔ reCompile ("^" ++ pattern ++ "$") = none)
    ∧ (∀ rule, RegexpStrategyRule pattern action = Except.ok rule →
        ∀ stats, rule.get_symbol stats = some (action.apply stats.symbol)
          ∨ rule.get_symbol stats = none) := by
  constructor
  · constructor
    · rintro ⟨e, he⟩
      unfold RegexpStrategyRule at he
      cases hc : reCompile ("^" ++ pattern ++ "$") with
      | some r =>
        rw [hc] at he
        cases he
      | none => rfl
    · intro hc
      exact ⟨_, by unfold RegexpStrategyRule; rw [hc]⟩
  · intro rule hok stats
    unfold RegexpStrategyRule at hok
    cases hc : reCompile ("^" ++ pattern ++ "$") with
    | some r =>
      rw [hc] at hok
      cases hok
      simp only [StrategyRule.get_symbol]
      split_ifs
      · exact Or.inl rfl
      · exact Or.inr rfl
    | none =>
      rw [hc] at hok
      cases hok

/-- Witness for C6: the pattern "(" is rejected at construction; the
constructed rule for "foo" evaluates without failing. -/
theorem regexp_construction_witness :
    (∃ e, RegexpStrategyRule "(" SymbolKind.branch = Except.error e)
    ∧ (fooBranchRule.get_symbol fooStats
          = some (SymbolKind.branch.apply fooStats.symbol)
        ∨ fooBranchRule.get_symbol fooStats = none) :=
  ⟨(regexp_construction_fails_only_on_invalid "(" SymbolKind.branch).1.2 (by decide),
    (regexp_construction_fails_only_on_invalid "foo" SymbolKind.branch).2
      fooBranchRule (by decide) fooStats⟩

/-- C7: a chain containing `AllBranch` or `AllTag` never produces the
unresolved-symbol failure; with the chain `[AllBranch]`, every record
classifies as Branch and the output has one entry per input record. -/
theorem catch_all_prevents_failure (self : RuleBasedSymbolStrategy)
    (sl : List SymbolStats) :
    ((StrategyRule.allBranchRule ∈ self.rules
        ∨ StrategyRule.allTagRule ∈ self.rules) →
        ∃ out, self.get_symbols sl = some out)
    ∧ (RuleBasedSymbolStrategy.mk [StrategyRule.allBranchRule]).get_symbols sl
        = some (sl.map (fun s => TypedSymbol.Branch s.symbol))
    ∧ (∀ out,
        (RuleBasedSymbolStrategy.mk [StrategyRule.allBranchRule]).get_symbols sl
            = some out →
        out.length = sl.length) := by
  have h2 : (RuleBasedSymbolStrategy.mk [StrategyRule.allBranchRule]).get_symbols sl
      = some (sl.map (fun s => TypedSymbol.Branch s.symbol)) := by
    simp [RuleBasedSymbolStrategy.get_symbols, collect_allBranch]
  refine ⟨?_, h2, ?_⟩
  · intro hmem
    cases hout : self.get_symbols sl with
    | some out => exact ⟨out, rfl⟩
    | none =>
      obtain ⟨s, _, hnone⟩ := (get_symbols_eq_none_iff self sl).1 hout
      have := chain_isSome_of_catch_all self.rules s hmem
      rw [hnone] at this
      cases this
  · intro out hout
    rw [h2] at hout
    cases hout
    exact List.length_map sl _

/-- Witness for C7 at concrete inputs. -/
theorem catch_all_prevents_failure_witness :
    (∃ out, (RuleBasedSymbolStrategy.mk [StrategyRule.allTagRule]).get_symbols
        [relStats] = some out)
    ∧ ([TypedSymbol.Branch relSymbol] : List TypedSymbol).length
        = ([relStats] : List SymbolStats).length :=
  ⟨(catch_all_prevents_failure ⟨[StrategyRule.allTagRule]⟩ [relStats]).1
      (Or.inr (by decide)),
    (catch_all_prevents_failure ⟨[StrategyRule.allBranchRule]⟩ [relStats]).2.2
      [TypedSymbol.Branch relSymbol] (by decide)⟩

/-- C8: on success the classifications correspond one to one with the
input records: same length, same in-order list of wrapped symbol
identities, and (for pairwise distinct input identities) no
duplicates. -/
theorem get_symbols_one_to_one (self : RuleBasedSymbolStrategy)
    (sl : List SymbolStats) (out : List TypedSymbol)
    (h : self.get_symbols sl = some out)
    (hnd : (sl.map SymbolStats.symbol).Nodup) :
    out.length = sl.length
    ∧ out.map TypedSymbol.symbol = sl.map SymbolStats.symbol
    ∧ (out.map TypedSymbol.symbol).Nodup := by
  obtain ⟨hout, hall⟩ := get_symbols_eq_some self sl out h
  have hmap : out.map TypedSymbol.symbol = sl.map SymbolStats.symbol := by
    rw [hout]
    exact filterMap_symbols _ _ hall
  refine ⟨?_, hmap, ?_⟩
  · simpa using congrArg List.length hmap
  · rw [hmap]
    exact hnd

/-- Witness for C8 at a concrete two-record input. -/
theorem get_symbols_one_to_one_witness :
    (([TypedSymbol.Branch relSymbol, TypedSymbol.Branch foodSymbol] :
        List TypedSymbol).map TypedSymbol.symbol).Nodup :=
  (get_symbols_one_to_one ⟨[StrategyRule.allBranchRule]⟩ [relStats, foodStats]
      [TypedSymbol.Branch relSymbol, TypedSymbol.Branch foodSymbol]
      (by decide) (by decide)).2.2

/-- C9: on success the classifications come back in the iteration
order of the input: the i-th output wraps the symbol of the i-th
input record. -/
theorem get_symbols_preserves_order (self : RuleBasedSymbolStrategy)
    (sl : List SymbolStats) (out : List TypedSymbol)
    (h : self.get_symbols sl = some out) :
    out.length = sl.length
    ∧ ∀ i (h₁ : i < out.length) (h₂ : i < sl.length),
        (out.get ⟨i, h₁⟩).symbol = (sl.get ⟨i, h₂⟩).symbol := by
  obtain ⟨hout, hall⟩ := get_symbols_eq_some self sl out h
  have hmap : out.map TypedSymbol.symbol = sl.map SymbolStats.symbol := by
    rw [hout]
    exact filterMap_symbols _ _ hall
  exact ⟨by simpa using congrArg List.length hmap, map_eq_map_get _ _ hmap⟩

/-- Witness for C9 at a concrete two-record input. -/
theorem get_symbols_preserves_order_witness :
    (([TypedSymbol.Branch relSymbol, TypedSymbol.Branch foodSymbol] :
        List TypedSymbol).get ⟨1, by decide⟩).symbol
      = (([relStats, foodStats] : List SymbolStats).get ⟨1, by decide⟩).symbol :=
  (get_symbols_preserves_order ⟨[StrategyRule.allBranchRule]⟩ [relStats, foodStats]
      [TypedSymbol.Branch relSymbol, TypedSymbol.Branch foodSymbol]
      (by decide)).2 1 (by decide) (by decide)

/-- C10: evaluation mutates nothing: threading the strategy and the
statistics records through the state-passing translation of
`get_symbols` (and of each rule call) returns them unchanged, whether
the evaluation succeeds or fails, and the threaded result agrees with
the direct translation. -/
theorem evaluation_is_mutation_free (self : RuleBasedSymbolStrategy)
    (sl : List SymbolStats) :
    (self.get_symbols_state sl).2.1 = self
    ∧ (self.get_symbols_state sl).2.2 = sl
    ∧ (self.get_symbols_state sl).1 = self.get_symbols sl
    ∧ (∀ (rule : StrategyRule) (stats : SymbolStats),
        (rule.get_symbol_state stats).2 = stats
        ∧ (getSymbolFromRulesState self.rules stats).2 = stats
        ∧ (rule.get_symbol_state stats).1 = rule.get_symbol stats) := by
  refine ⟨rfl, ?_, ?_, fun rule stats => ⟨rfl, ?_, rfl⟩⟩
  · simp [RuleBasedSymbolStrategy.get_symbols_state, collectSymbolsState_eq]
  · simp [RuleBasedSymbolStrategy.get_symbols_state,
      RuleBasedSymbolStrategy.get_symbols, collectSymbolsState_eq]
  · rw [getSymbolFromRulesState_eq]

end SymbolStrategy
